import Mathlib

/-!
# Verification of the incremental PR review engine

Shallow embedding of the review bot (`pr-review-bot/index.js`, present in the
repository in three textual revisions) together with proofs about its
phrase-extraction, diff matching, submission payloads and the orchestrating
state machine in `main`.

String values are modelled as Lean `String`s; the JavaScript string builtins
used by the source (`trim`, `toLowerCase`, `includes`, `replace` with a string
pattern, `slice(0, 30)`, `.length`) are modelled by the functions below.
-/

namespace PrReviewBot

/-! ## String primitives (models of the JavaScript builtins used by the source) -/

/-- Model of list prefix testing used by the substring search. -/
def charsPrefixOf : List Char → List Char → Bool
  | [], _ => true
  | _ :: _, [] => false
  | a :: as, b :: bs => a == b && charsPrefixOf as bs

/-- Model of substring search: does `pat` occur contiguously inside the second list? -/
def charsContains (pat : List Char) : List Char → Bool
  | [] => charsPrefixOf pat []
  | c :: rest => charsPrefixOf pat (c :: rest) || charsContains pat rest

/-- Model of JavaScript `hay.includes(pat)`. -/
def strContains (hay pat : String) : Bool :=
  charsContains pat.data hay.data

/-- Model of JavaScript `String.prototype.replace` with a string pattern:
replaces only the first occurrence. -/
def charsReplaceFirst (pat repl : List Char) : List Char → List Char
  | [] => []
  | c :: rest =>
    if charsPrefixOf pat (c :: rest) then repl ++ (c :: rest).drop pat.length
    else c :: charsReplaceFirst pat repl rest

/-- Model of JavaScript `s.replace(pat, repl)` (first occurrence only). -/
def strReplaceFirst (s pat repl : String) : String :=
  ⟨charsReplaceFirst pat.data repl.data s.data⟩

/-- Model of JavaScript `s.slice(0, n)`. -/
def strTake (s : String) (n : Nat) : String :=
  ⟨s.data.take n⟩

/-- Model of JavaScript `s.trim()`: whitespace stripped from both ends. -/
def strTrim (s : String) : String :=
  ⟨((s.data.dropWhile Char.isWhitespace).reverse.dropWhile Char.isWhitespace).reverse⟩

/-- Model of JavaScript `s.toLowerCase()`. -/
def strToLower (s : String) : String :=
  ⟨s.data.map Char.toLower⟩

/-- Model of `s.trim().toLowerCase()`, the normalization applied by the source
to both annotation contexts and diff line contents. -/
def normalize (s : String) : String :=
  strToLower (strTrim s)

/-! ## The key-phrase regular expression

The source extracts sub-phrases with the regex
`([a-zA-Z0-9_\.]+\([^)]+\))|([a-zA-Z0-9_]+\.[a-zA-Z0-9_]+)|([a-zA-Z0-9_]+\s*===\s*[^\s]+)`
executed globally (leftmost match, alternatives tried in order, greedy runs).
Each character class here is disjoint from the literal that follows it, so the
greedy runs never need to backtrack and the matcher below is exact. -/

/-- Characters of the class `[a-zA-Z0-9_\.]`. -/
def isWordDotChar (c : Char) : Bool :=
  c.isAlphanum || c == '_' || c == '.'

/-- Characters of the class `[a-zA-Z0-9_]`. -/
def isWordChar (c : Char) : Bool :=
  c.isAlphanum || c == '_'

/-- Greedy run of characters satisfying `p`: `(taken, rest)`. -/
def takeRun (p : Char → Bool) (s : List Char) : List Char × List Char :=
  (s.takeWhile p, s.dropWhile p)

/-- First regex alternative: `[a-zA-Z0-9_\.]+\([^)]+\)`. -/
def matchAlt1 (s : List Char) : Option (List Char × List Char) :=
  let (w, r1) := takeRun isWordDotChar s
  if w.isEmpty then none else
  match r1 with
  | '(' :: r2 =>
    let (c, r3) := takeRun (fun ch => ch != ')') r2
    if c.isEmpty then none else
    match r3 with
    | ')' :: r4 => some (w ++ '(' :: c ++ [')'], r4)
    | _ => none
  | _ => none

/-- Second regex alternative: `[a-zA-Z0-9_]+\.[a-zA-Z0-9_]+`. -/
def matchAlt2 (s : List Char) : Option (List Char × List Char) :=
  let (w1, r1) := takeRun isWordChar s
  if w1.isEmpty then none else
  match r1 with
  | '.' :: r2 =>
    let (w2, r3) := takeRun isWordChar r2
    if w2.isEmpty then none else some (w1 ++ '.' :: w2, r3)
  | _ => none

/-- Third regex alternative: `[a-zA-Z0-9_]+\s*===\s*[^\s]+`. -/
def matchAlt3 (s : List Char) : Option (List Char × List Char) :=
  let (w, r1) := takeRun isWordChar s
  if w.isEmpty then none else
  let (ws1, r2) := takeRun Char.isWhitespace r1
  match r2 with
  | '=' :: '=' :: '=' :: r3 =>
    let (ws2, r4) := takeRun Char.isWhitespace r3
    let (v, r5) := takeRun (fun ch => !ch.isWhitespace) r4
    if v.isEmpty then none
    else some (w ++ ws1 ++ '=' :: '=' :: '=' :: (ws2 ++ v), r5)
  | _ => none

/-- One attempt at the current position: alternatives tried in order. -/
def matchAltAt (s : List Char) : Option (List Char × List Char) :=
  (matchAlt1 s).orElse (fun _ => (matchAlt2 s).orElse (fun _ => matchAlt3 s))

/-- Global regex execution: leftmost matches, scanning resumes after each
match.  The fuel argument bounds the recursion; every step consumes at least
one character, so `s.length` fuel computes the full match list. -/
def regexPhrasesAux : Nat → List Char → List (List Char)
  | 0, _ => []
  | _, [] => []
  | fuel + 1, c :: rest =>
    match matchAltAt (c :: rest) with
    | some (m, r) => m :: regexPhrasesAux fuel r
    | none => regexPhrasesAux fuel rest

/-- All matches of the key-phrase regex in `s`, in order. -/
def regexPhrases (s : String) : List String :=
  (regexPhrasesAux s.data.length s.data).map (fun l => ⟨l⟩)

/-! ## Diff model

Model of the structures returned by the `parse-diff` library that the matcher
reads: files with a new-side path `to`, chunks, and changes with an
added/removed/context kind, a text content and (for added lines) the new-side
line number `ln`. -/

/-- Kind of a diff change line. -/
inductive ChangeKind where
  | add : ChangeKind
  | del : ChangeKind
  | normal : ChangeKind
deriving DecidableEq, Repr

/-- One change line of a hunk.  `ln` is the new-side line number; the matcher
only ever reads it on `add` changes. -/
structure Change where
  kind : ChangeKind
  content : String
  ln : Nat
deriving DecidableEq, Repr

/-- One hunk of a file diff. -/
structure Chunk where
  changes : List Change
deriving DecidableEq, Repr

/-- One file of the parsed diff; `to` (escaped as `«to»` since `to` is a
reserved word here) is the new-side path. -/
structure FileDiff where
  «to» : String
  chunks : List Chunk
deriving DecidableEq, Repr

/-- An annotation candidate decoded from the LLM response. -/
structure LLMComment where
  context : String
  comment : String
  suggestion : String
deriving DecidableEq, Repr

/-- An anchored inline comment produced by the matcher. -/
structure MappedComment where
  path : String
  line : Nat
  side : String
  body : String
deriving DecidableEq, Repr

/-! ## Phrase extraction and matching — current version
(`mapCommentsToDiff`, part_001 lines 80–138) -/

/-- The literal ellipsis marker `\x7b ... \x7d` tested by the extractor. -/
def ellipsisMarker : String := "\x7b ... \x7d"

/-- Key-phrase extraction from a normalized annotation context, translated
from the body of `mapCommentsToDiff` (part_001 lines 89–102). -/
def extractKeyPhrases (codeContext : String) : List String :=
  let keyPhrases : List String :=
    if strContains codeContext ellipsisMarker then
      [strTrim (strReplaceFirst codeContext ellipsisMarker "")]
    else []
  if codeContext.length > 30 || keyPhrases.length == 0 then
    keyPhrases ++ regexPhrases codeContext ++ [strTake codeContext 30]
  else
    [codeContext]

/-- Stable insertion used to model `keyPhrases.sort((a, b) => b.length - a.length)`:
descending by length, elements of equal length keep their relative order. -/
def insertLenDesc (x : String) : List String → List String
  | [] => [x]
  | y :: ys => if y.length ≤ x.length then x :: y :: ys else y :: insertLenDesc x ys

/-- Model of the stable JavaScript sort by descending phrase length. -/
def sortLenDesc : List String → List String
  | [] => []
  | x :: xs => insertLenDesc x (sortLenDesc xs)

/-- The inner phrase loop of the matcher (part_001 lines 109–123): phrases are
sorted by descending length and the first non-empty phrase contained in the
line content wins. -/
def findMatchingPhrase (keyPhrases : List String) (lineContent : String) : Option String :=
  (sortLenDesc keyPhrases).find? (fun phrase => phrase != "" && strContains lineContent phrase)

/-- The body text composed for a mapped comment (part_001 line 117). -/
def commentBody (comment : LLMComment) : String :=
  "Issue: " ++ comment.comment ++ "\n\n**Suggestion:** " ++ comment.suggestion

/-- Matching of one annotation against the parsed diff, translated from the
file/chunk/change loops of `mapCommentsToDiff` (part_001 lines 104–130): files,
hunks and lines are scanned in order, only added lines are considered, and the
`matched` flag breaks out of all loops after the first hit. -/
def mapComment (files : List FileDiff) (comment : LLMComment) : Option MappedComment :=
  let codeContext := normalize comment.context
  let keyPhrases := extractKeyPhrases codeContext
  files.findSome? (fun file =>
    file.chunks.findSome? (fun chunk =>
      chunk.changes.findSome? (fun change =>
        if change.kind == ChangeKind.add then
          match findMatchingPhrase keyPhrases (normalize change.content) with
          | some _ => some { path := file.«to», line := change.ln, side := "RIGHT",
                             body := commentBody comment }
          | none => none
        else none)))

/-- The matcher over an already-parsed diff: one pass per annotation, unmapped
annotations dropped (part_001 lines 84–137). -/
def mapCommentsToDiffFiles (files : List FileDiff) (llmComments : List LLMComment) :
    List MappedComment :=
  llmComments.filterMap (mapComment files)

/-! ## Diff text parser

`mapCommentsToDiff` starts with `const files = parse(diff)` where `parse` is
the external `parse-diff` library. -/

/-- Parses the leading decimal digits of `l` as a number. -/
def leadingNat (l : List Char) : Nat :=
  (l.takeWhile Char.isDigit).foldl (fun n c => n * 10 + (c.toNat - 48)) 0

/-- Modelled from the spec: reading the new-side start line out of a hunk
header `@@ -oldStart,oldCount +newStart,newCount @@` (§4.1 of the spec); the
concrete header parsing lives in the external `parse-diff` library, which is
not part of the repository sources. -/
def hunkNewStart (line : String) : Option Nat :=
  match (line.splitOn " ").filter (fun t => t.startsWith "+") with
  | [] => none
  | t :: _ => some (leadingNat (t.data.drop 1))

/-- Closes the currently open hunk, if any. -/
def closeChunk (chunks : List Chunk) (cur : Option (List Change × Nat)) : List Chunk :=
  match cur with
  | none => chunks
  | some (chs, _) => chunks ++ [⟨chs⟩]

/-- Closes the currently open file, if any. -/
def closeFile (files : List FileDiff) (curPath : Option String) (chunks : List Chunk)
    (cur : Option (List Change × Nat)) : List FileDiff :=
  match curPath with
  | none => files
  | some p => files ++ [⟨p, closeChunk chunks cur⟩]

/-- Modelled from the spec: the unified-diff parser (§4.1) — the repository
delegates this to the external `parse-diff` library, whose sources are not in
the repository.  Context and added lines advance the new-side counter, removed
lines do not; malformed sections are skipped rather than aborting the parse. -/
def parseLines : List String → List FileDiff → Option String → List Chunk →
    Option (List Change × Nat) → List FileDiff
  | [], files, curPath, chunks, cur => closeFile files curPath chunks cur
  | l :: rest, files, curPath, chunks, cur =>
    if l.startsWith "+++ " then
      let path := if l.startsWith "+++ b/" then l.drop 6 else l.drop 4
      parseLines rest (closeFile files curPath chunks cur) (some path) [] none
    else if l.startsWith "@@" then
      match curPath, hunkNewStart l with
      | some p, some n => parseLines rest files (some p) (closeChunk chunks cur) (some ([], n))
      | _, _ => parseLines rest files curPath chunks cur
    else
      match cur with
      | none => parseLines rest files curPath chunks cur
      | some (chs, n) =>
        if l.startsWith "+" then
          parseLines rest files curPath chunks
            (some (chs ++ [⟨ChangeKind.add, l.drop 1, n⟩], n + 1))
        else if l.startsWith "--- " then
          parseLines rest files curPath chunks cur
        else if l.startsWith "-" then
          parseLines rest files curPath chunks (some (chs ++ [⟨ChangeKind.del, l.drop 1, 0⟩], n))
        else if l.startsWith " " then
          parseLines rest files curPath chunks
            (some (chs ++ [⟨ChangeKind.normal, l.drop 1, n⟩], n + 1))
        else
          parseLines rest files curPath chunks cur

/-- Modelled from the spec: `parse(diff)` of the external `parse-diff` library
(spec §4.1), shared by all three revisions of `mapCommentsToDiff`. -/
def parseDiffText (diff : String) : List FileDiff :=
  parseLines (diff.splitOn "\n") [] none [] none

/-- The current `mapCommentsToDiff` (part_001 lines 80–138), taking the raw
diff text. -/
def mapCommentsToDiff (diff : String) (llmComments : List LLMComment) : List MappedComment :=
  let files := parseDiffText diff
  llmComments.filterMap (mapComment files)

/-! ## The `mapCommentsToDiff` copy of part_000 (lines 80–138) -/

/-- Key-phrase extraction as written in part_000 lines 89–102. -/
def extractKeyPhrasesPart000 (codeContext : String) : List String :=
  let keyPhrases : List String :=
    if strContains codeContext ellipsisMarker then
      [strTrim (strReplaceFirst codeContext ellipsisMarker "")]
    else []
  if codeContext.length > 30 || keyPhrases.length == 0 then
    keyPhrases ++ regexPhrases codeContext ++ [strTake codeContext 30]
  else
    [codeContext]

/-- The inner phrase loop as written in part_000 lines 109–123. -/
def findMatchingPhrasePart000 (keyPhrases : List String) (lineContent : String) : Option String :=
  (sortLenDesc keyPhrases).find? (fun phrase => phrase != "" && strContains lineContent phrase)

/-- The body template of part_000 line 117. -/
def commentBodyPart000 (comment : LLMComment) : String :=
  "Issue: " ++ comment.comment ++ "\n\n**Suggestion:** " ++ comment.suggestion

/-- One annotation matched against the diff, as written in part_000 lines 84–134. -/
def mapCommentPart000 (files : List FileDiff) (comment : LLMComment) : Option MappedComment :=
  let codeContext := normalize comment.context
  let keyPhrases := extractKeyPhrasesPart000 codeContext
  files.findSome? (fun file =>
    file.chunks.findSome? (fun chunk =>
      chunk.changes.findSome? (fun change =>
        if change.kind == ChangeKind.add then
          match findMatchingPhrasePart000 keyPhrases (normalize change.content) with
          | some _ => some { path := file.«to», line := change.ln, side := "RIGHT",
                             body := commentBodyPart000 comment }
          | none => none
        else none)))

/-- The function mapCommentsToDiff as written in part_000 lines 80–138. -/
def mapCommentsToDiffPart000 (diff : String) (llmComments : List LLMComment) :
    List MappedComment :=
  let files := parseDiffText diff
  llmComments.filterMap (mapCommentPart000 files)

/-! ## The older `mapCommentsToDiff` copy embedded later in part_001 (lines 425–483) -/

/-- Key-phrase extraction as written in part_001 lines 434–447. -/
def extractKeyPhrasesLegacy (codeContext : String) : List String :=
  let keyPhrases : List String :=
    if strContains codeContext ellipsisMarker then
      [strTrim (strReplaceFirst codeContext ellipsisMarker "")]
    else []
  if codeContext.length > 30 || keyPhrases.length == 0 then
    keyPhrases ++ regexPhrases codeContext ++ [strTake codeContext 30]
  else
    [codeContext]

/-- The inner phrase loop as written in part_001 lines 454–468. -/
def findMatchingPhraseLegacy (keyPhrases : List String) (lineContent : String) : Option String :=
  (sortLenDesc keyPhrases).find? (fun phrase => phrase != "" && strContains lineContent phrase)

/-- The body template of part_001 line 462. -/
def commentBodyLegacy (comment : LLMComment) : String :=
  "Issue: " ++ comment.comment ++ "\n\n**Suggestion:** " ++ comment.suggestion

/-- One annotation matched against the diff, as written in part_001 lines 429–479. -/
def mapCommentLegacy (files : List FileDiff) (comment : LLMComment) : Option MappedComment :=
  let codeContext := normalize comment.context
  let keyPhrases := extractKeyPhrasesLegacy codeContext
  files.findSome? (fun file =>
    file.chunks.findSome? (fun chunk =>
      chunk.changes.findSome? (fun change =>
        if change.kind == ChangeKind.add then
          match findMatchingPhraseLegacy keyPhrases (normalize change.content) with
          | some _ => some { path := file.«to», line := change.ln, side := "RIGHT",
                             body := commentBodyLegacy comment }
          | none => none
        else none)))

/-- The function mapCommentsToDiff as written in part_001 lines 425–483. -/
def mapCommentsToDiffLegacy (diff : String) (llmComments : List LLMComment) :
    List MappedComment :=
  let files := parseDiffText diff
  llmComments.filterMap (mapCommentLegacy files)

/-! ## Submission payloads -/

/-- The JSON payload posted to the reviews endpoint.  A field that JavaScript
leaves `undefined` is dropped by the JSON serialization, modelled as `none`. -/
structure ReviewPayload where
  event : String
  body : Option String
  comments : Option (List MappedComment)
deriving DecidableEq, Repr

/-- Payload built by submitReview of the current version (part_001 lines 140–152): the
payload starts as `\x7b event \x7d`; `APPROVE` adds a body and never a
comments list; `REQUEST_CHANGES`/`COMMENT` add a body and attach the comments
list only when it is non-empty. -/
def submitReviewPayload (mappedComments : Option (List MappedComment)) (mode : String) :
    ReviewPayload :=
  if mode == "APPROVE" then
    { event := mode, body := some "LGTM! Approving.", comments := none }
  else if mode == "REQUEST_CHANGES" || mode == "COMMENT" then
    { event := mode,
      body := some "Automated PR review found critical issues. See inline comments.",
      comments :=
        match mappedComments with
        | some cs => if cs.length > 0 then some cs else none
        | none => none }
  else
    { event := mode, body := none, comments := none }

/-- Payload built by submitReview of part_000 (lines 140–152): body always present, comments
attached only for `REQUEST_CHANGES`/`COMMENT` with a non-empty list. -/
def submitReviewPayloadPart000 (mappedComments : Option (List MappedComment)) (mode : String) :
    ReviewPayload :=
  { event := mode,
    body := some (if mode == "APPROVE" then
        "Automated review: All previous issues are resolved. Approving PR."
      else "Automated PR review found critical issues. See inline comments."),
    comments :=
      if mode == "REQUEST_CHANGES" || mode == "COMMENT" then
        match mappedComments with
        | some cs => if cs.length > 0 then some cs else none
        | none => none
      else none }

/-- The older `submitReview` embedded later in part_001 (lines 485–506):
`comments` is the ternary `mode === REQUEST_CHANGES ? mappedComments :
undefined`, so for `REQUEST_CHANGES` the given list is attached even when it
is empty, and `COMMENT` never carries a list. -/
def submitReviewPayloadLegacy (mappedComments : Option (List MappedComment)) (mode : String) :
    ReviewPayload :=
  { event := mode,
    body := some (if mode == "APPROVE" then "All issues are resolved. Approving the PR ✅"
      else "Automated PR review found critical issues. See inline comments."),
    comments := if mode == "REQUEST_CHANGES" then mappedComments else none }

/-- Payload built by approvePullRequest (part_001 lines 176–209): an APPROVE payload with a
defaulted body and no comments field at all. -/
def approvePullRequestPayload (body : Option String) : ReviewPayload :=
  let b := match body with
    | none => "LGTM! Approving."
    | some s => if s == "" then "LGTM! Approving." else s
  { event := "APPROVE", body := some b, comments := none }

/-! ## The orchestrator (`main`, part_001 lines 256–315)

`main` is modelled as a pure function from the results of its external
collaborators to the trace of calls it performs, in order.  A `none` in the
environment means that collaborator's call fails (throws); `loadReviewCache`
never throws — a missing, empty or undecodable cache file is `none` in the
`cache` field, which models the `null` return. -/

/-- Head and base commit of the reviewed pull request, from `getPrDetails`. -/
structure PrDetails where
  headSha : String
  baseSha : String
deriving DecidableEq, Repr

/-- The persisted review cache record. -/
structure ReviewState where
  last_commit : String
  previous_comments : List MappedComment
deriving DecidableEq, Repr

/-- Results of the external collaborators for one run. -/
structure Env where
  prDetails : Option PrDetails
  cache : Option ReviewState
  diffText : Option String
  llmComments : Option (List LLMComment)

/-- One observable step of a run, in execution order. -/
inductive Step where
  | fetchMetadata : Step
  | loadCache : Step
  | fetchDiff : String → String → Step
  | callLLM : Step
  | saveCache : ReviewState → Step
  | submit : ReviewPayload → Step
deriving DecidableEq, Repr

/-- Steps that are network calls to an external collaborator (the cache load
and save are local file accesses). -/
def Step.isExternal : Step → Bool
  | Step.fetchMetadata => true
  | Step.fetchDiff _ _ => true
  | Step.callLLM => true
  | Step.submit _ => true
  | Step.loadCache => false
  | Step.saveCache _ => false

/-- Is this step a state write? -/
def Step.isSave : Step → Bool
  | Step.saveCache _ => true
  | _ => false

/-- Is this step a review submission? -/
def Step.isSubmit : Step → Bool
  | Step.submit _ => true
  | _ => false

/-- Is this step a diff fetch? -/
def Step.isFetchDiff : Step → Bool
  | Step.fetchDiff _ _ => true
  | _ => false

/-- Is this step an LLM call? -/
def Step.isCallLLM : Step → Bool
  | Step.callLLM => true
  | _ => false

/-- The trace of `main` (part_001 lines 256–315).  Every failure of an
external call propagates to the surrounding try/catch, which logs and
returns, so the trace simply ends at the failing step. -/
def mainRun (env : Env) : List Step :=
  match env.prDetails with
  | none => [Step.fetchMetadata]
  | some pr =>
    let currentSha := pr.headSha
    match env.cache with
    | some previousCache =>
      if previousCache.last_commit == currentSha then
        [Step.fetchMetadata, Step.loadCache]
      else
        let baseSha := previousCache.last_commit
        match env.diffText with
        | none => [Step.fetchMetadata, Step.loadCache, Step.fetchDiff baseSha currentSha]
        | some diff =>
          match env.llmComments with
          | none => [Step.fetchMetadata, Step.loadCache, Step.fetchDiff baseSha currentSha,
                     Step.callLLM]
          | some comments =>
            let mapped := mapCommentsToDiff diff comments
            let previousLines := previousCache.previous_comments.map (fun c => (c.path, c.line))
            let relevantFixes := mapped.filter (fun c =>
              previousLines.any (fun prev => prev.1 == c.path && prev.2 == c.line))
            if relevantFixes.length == 0 then
              [Step.fetchMetadata, Step.loadCache, Step.fetchDiff baseSha currentSha,
               Step.callLLM, Step.saveCache ⟨currentSha, []⟩,
               Step.submit (approvePullRequestPayload (some "Looks good to me. Approving."))]
            else
              [Step.fetchMetadata, Step.loadCache, Step.fetchDiff baseSha currentSha,
               Step.callLLM, Step.saveCache ⟨currentSha, relevantFixes⟩,
               Step.submit (submitReviewPayload (some relevantFixes) "REQUEST_CHANGES")]
    | none =>
      let baseSha := pr.baseSha
      match env.diffText with
      | none => [Step.fetchMetadata, Step.loadCache, Step.fetchDiff baseSha currentSha]
      | some diff =>
        match env.llmComments with
        | none => [Step.fetchMetadata, Step.loadCache, Step.fetchDiff baseSha currentSha,
                   Step.callLLM]
        | some comments =>
          let mapped := mapCommentsToDiff diff comments
          if mapped.length > 0 then
            [Step.fetchMetadata, Step.loadCache, Step.fetchDiff baseSha currentSha,
             Step.callLLM, Step.saveCache ⟨currentSha, mapped⟩,
             Step.submit (submitReviewPayload (some mapped) "REQUEST_CHANGES")]
          else
            [Step.fetchMetadata, Step.loadCache, Step.fetchDiff baseSha currentSha,
             Step.callLLM, Step.saveCache ⟨currentSha, mapped⟩,
             Step.submit (approvePullRequestPayload (some "Looks good to me. Approving."))]

/-! ## Added-line view of a parsed diff

`addedChanges files` lists, in diff scan order, every added change paired with
the path of the file it belongs to.  It is the reference against which the
matcher's loop structure is characterized. -/

/-- Added changes of one hunk's change list, paired with the file path. -/
def chunkAdded (path : String) : List Change → List (String × Change)
  | [] => []
  | ch :: rest =>
    if ch.kind == ChangeKind.add then (path, ch) :: chunkAdded path rest
    else chunkAdded path rest

/-- Added changes of a file's hunks, in order. -/
def addedOfChunks (path : String) : List Chunk → List (String × Change)
  | [] => []
  | c :: cs => chunkAdded path c.changes ++ addedOfChunks path cs

/-- Added changes of the whole diff, in file/hunk/line order. -/
def addedChanges : List FileDiff → List (String × Change)
  | [] => []
  | f :: fs => addedOfChunks f.«to» f.chunks ++ addedChanges fs

/-- Does the normalized content of `ch` contain one of the candidate phrases
(in the sense of the matcher's inner loop)? -/
def lineMatches (keyPhrases : List String) (ch : Change) : Bool :=
  (findMatchingPhrase keyPhrases (normalize ch.content)).isSome

theorem findSome?_changes_eq (path : String) (keyPhrases : List String) (body : String)
    (chs : List Change) :
    chs.findSome? (fun change =>
        if change.kind == ChangeKind.add then
          match findMatchingPhrase keyPhrases (normalize change.content) with
          | some _ => some { path := path, line := change.ln, side := "RIGHT", body := body }
          | none => (none : Option MappedComment)
        else none)
    = ((chunkAdded path chs).find? (fun pc => lineMatches keyPhrases pc.2)).map
        (fun pc => { path := pc.1, line := pc.2.ln, side := "RIGHT", body := body }) := by
  induction chs with
  | nil => rfl
  | cons ch rest ih =>
    rw [List.findSome?_cons]
    by_cases hk : (ch.kind == ChangeKind.add) = true
    · rw [chunkAdded]
      rw [if_pos hk]
      cases hm : findMatchingPhrase keyPhrases (normalize ch.content) with
      | some p =>
        simp only [hk, if_true, hm, List.find?_cons, lineMatches, Option.isSome]
        rfl
      | none =>
        simp only [hk, if_true, hm, List.find?_cons, lineMatches, Option.isSome]
        exact ih
    · rw [chunkAdded, if_neg hk]
      simp only [Bool.not_eq_true] at hk
      simp only [hk, Bool.false_eq_true, if_false]
      exact ih

theorem findSome?_chunks_eq (path : String) (keyPhrases : List String) (body : String)
    (chunks : List Chunk) :
    chunks.findSome? (fun chunk =>
        chunk.changes.findSome? (fun change =>
          if change.kind == ChangeKind.add then
            match findMatchingPhrase keyPhrases (normalize change.content) with
            | some _ => some { path := path, line := change.ln, side := "RIGHT", body := body }
            | none => (none : Option MappedComment)
          else none))
    = ((addedOfChunks path chunks).find? (fun pc => lineMatches keyPhrases pc.2)).map
        (fun pc => { path := pc.1, line := pc.2.ln, side := "RIGHT", body := body }) := by
  induction chunks with
  | nil => rfl
  | cons c cs ih =>
    rw [List.findSome?_cons, findSome?_changes_eq path keyPhrases body c.changes,
      addedOfChunks, List.find?_append]
    cases hf : (chunkAdded path c.changes).find? (fun pc => lineMatches keyPhrases pc.2) with
    | some pc => rfl
    | none => simpa using ih

theorem mapComment_eq_find (files : List FileDiff) (comment : LLMComment) :
    mapComment files comment =
      ((addedChanges files).find? (fun pc =>
          lineMatches (extractKeyPhrases (normalize comment.context)) pc.2)).map
        (fun pc => { path := pc.1, line := pc.2.ln, side := "RIGHT",
                     body := commentBody comment }) := by
  induction files with
  | nil => rfl
  | cons f fs ih =>
    rw [mapComment, List.findSome?_cons]
    rw [findSome?_chunks_eq f.«to» (extractKeyPhrases (normalize comment.context))
      (commentBody comment) f.chunks]
    rw [addedChanges, List.find?_append]
    cases hf : (addedOfChunks f.«to» f.chunks).find?
        (fun pc => lineMatches (extractKeyPhrases (normalize comment.context)) pc.2) with
    | some pc => rfl
    | none => simpa [mapComment] using ih

theorem mem_chunkAdded {path : String} {chs : List Change} {x : String × Change}
    (hx : x ∈ chunkAdded path chs) :
    x.1 = path ∧ x.2 ∈ chs ∧ x.2.kind = ChangeKind.add := by
  induction chs with
  | nil => cases hx
  | cons ch rest ih =>
    rw [chunkAdded] at hx
    by_cases hk : (ch.kind == ChangeKind.add) = true
    · rw [if_pos hk] at hx
      rcases List.mem_cons.mp hx with h | h
      · subst h
        exact ⟨rfl, List.mem_cons_self _ _, beq_iff_eq.mp hk⟩
      · rcases ih h with ⟨h1, h2, h3⟩
        exact ⟨h1, List.mem_cons_of_mem _ h2, h3⟩
    · rw [if_neg hk] at hx
      rcases ih hx with ⟨h1, h2, h3⟩
      exact ⟨h1, List.mem_cons_of_mem _ h2, h3⟩

theorem mem_addedOfChunks {path : String} {chunks : List Chunk} {x : String × Change}
    (hx : x ∈ addedOfChunks path chunks) :
    x.1 = path ∧ ∃ c ∈ chunks, x.2 ∈ c.changes ∧ x.2.kind = ChangeKind.add := by
  induction chunks with
  | nil => cases hx
  | cons c cs ih =>
    rw [addedOfChunks] at hx
    rcases List.mem_append.mp hx with h | h
    · rcases mem_chunkAdded h with ⟨h1, h2, h3⟩
      exact ⟨h1, c, List.mem_cons_self _ _, h2, h3⟩
    · rcases ih h with ⟨h1, c0, hc0, h2, h3⟩
      exact ⟨h1, c0, List.mem_cons_of_mem _ hc0, h2, h3⟩

theorem mem_addedChanges {files : List FileDiff} {x : String × Change}
    (hx : x ∈ addedChanges files) :
    ∃ f ∈ files, f.«to» = x.1 ∧
      ∃ chunk ∈ f.chunks, x.2 ∈ chunk.changes ∧ x.2.kind = ChangeKind.add := by
  induction files with
  | nil => cases hx
  | cons f fs ih =>
    rw [addedChanges] at hx
    rcases List.mem_append.mp hx with h | h
    · rcases mem_addedOfChunks h with ⟨h1, c0, hc0, h2, h3⟩
      exact ⟨f, List.mem_cons_self _ _, h1.symm, c0, hc0, h2, h3⟩
    · rcases ih h with ⟨f0, hf0, h1, c0, hc0, h2, h3⟩
      exact ⟨f0, List.mem_cons_of_mem _ hf0, h1, c0, hc0, h2, h3⟩

/-- C5: for every annotation the matcher scans files, hunks and lines in diff
order, considers only added lines, and emits at most one `MappedComment` — for
the first added line (in global diff order) whose normalized text contains one
of the annotation's candidate phrases — while an annotation matching no line
is dropped from the output.  Formally: on any parsed diff, the matcher's
output is the per-annotation `filterMap` of the first match over the
flattened, in-order list of added changes. -/
theorem mapCommentsToDiffFiles_first_match (files : List FileDiff)
    (llmComments : List LLMComment) :
    mapCommentsToDiffFiles files llmComments =
      llmComments.filterMap (fun comment =>
        ((addedChanges files).find? (fun pc =>
            lineMatches (extractKeyPhrases (normalize comment.context)) pc.2)).map
          (fun pc => { path := pc.1, line := pc.2.ln, side := "RIGHT",
                       body := commentBody comment })) := by
  unfold mapCommentsToDiffFiles
  congr 1
  funext comment
  exact mapComment_eq_find files comment

/-- C6: every `MappedComment` the matcher produces has side `RIGHT` and its
`line` is the new-side line number `ln` of an added change of the file whose
new-side path equals the comment's `path`, in the diff that produced it —
never a removed or context line. -/
theorem mappedComment_anchored (files : List FileDiff) (llmComments : List LLMComment)
    (m : MappedComment) (hm : m ∈ mapCommentsToDiffFiles files llmComments) :
    m.side = "RIGHT" ∧
    ∃ f ∈ files, f.«to» = m.path ∧
      ∃ chunk ∈ f.chunks, ∃ ch ∈ chunk.changes,
        ch.kind = ChangeKind.add ∧ ch.ln = m.line := by
  rcases List.mem_filterMap.mp hm with ⟨comment, _, hmap⟩
  rw [mapComment_eq_find] at hmap
  cases hfind : (addedChanges files).find? (fun pc =>
      lineMatches (extractKeyPhrases (normalize comment.context)) pc.2) with
  | none =>
    rw [hfind] at hmap
    cases hmap
  | some pc =>
    rw [hfind] at hmap
    have hpc : (⟨pc.1, pc.2.ln, "RIGHT", commentBody comment⟩ : MappedComment) = m := by
      cases hmap
      rfl
    rcases mem_addedChanges (List.mem_of_find?_eq_some hfind) with
      ⟨f, hf, hto, chunk, hchunk, hch, hkind⟩
    subst hpc
    exact ⟨rfl, f, hf, hto, chunk, hchunk, pc.2, hch, hkind, rfl⟩

/-- A one-file diff with one added line, used as concrete input. -/
def exFiles : List FileDiff :=
  [⟨"utils.js", [⟨[⟨ChangeKind.normal, "ctx", 41⟩,
                   ⟨ChangeKind.add, "const y = foo.bar(x);", 42⟩]⟩]⟩]

/-- A concrete annotation list matching the added line of `exFiles`. -/
def exComments : List LLMComment :=
  [⟨"foo.bar(x)", "missing null check", "add a guard"⟩]

/-- Witness for C6 at a concrete diff and annotation. -/
theorem mappedComment_anchored_witness :
    (⟨"utils.js", 42, "RIGHT",
      "Issue: missing null check\n\n**Suggestion:** add a guard"⟩ : MappedComment) ∈
      mapCommentsToDiffFiles exFiles exComments ∧
    ((⟨"utils.js", 42, "RIGHT",
       "Issue: missing null check\n\n**Suggestion:** add a guard"⟩ : MappedComment).side = "RIGHT" ∧
     ∃ f ∈ exFiles, f.«to» =
        (⟨"utils.js", 42, "RIGHT",
          "Issue: missing null check\n\n**Suggestion:** add a guard"⟩ : MappedComment).path ∧
       ∃ chunk ∈ f.chunks, ∃ ch ∈ chunk.changes,
         ch.kind = ChangeKind.add ∧ ch.ln =
          (⟨"utils.js", 42, "RIGHT",
            "Issue: missing null check\n\n**Suggestion:** add a guard"⟩ : MappedComment).line) :=
  ⟨by decide, mappedComment_anchored exFiles exComments _ (by decide)⟩

/-! ## C7: the ellipsis-marker branch of the phrase extractor -/

/-- C7 counterexample: for the context `foo \x7b ... \x7d` (which contains the
literal ellipsis marker) the extractor does NOT use the stripped, trimmed
remainder `foo` as the single candidate phrase — the short-context branch
overwrites the key-phrase list with the whole context, marker included. -/
theorem extractKeyPhrases_marker_cex :
    strContains "foo \x7b ... \x7d" ellipsisMarker = true ∧
    extractKeyPhrases "foo \x7b ... \x7d" = ["foo \x7b ... \x7d"] ∧
    extractKeyPhrases "foo \x7b ... \x7d" ≠ ["foo"] := by
  refine ⟨by decide, by decide, by decide⟩

/-- C7 amended: if the normalized context contains the literal marker
`\x7b ... \x7d`, then for contexts longer than 30 characters the trimmed
remainder (marker stripped) is the FIRST candidate phrase, followed by the
regex-extracted sub-phrases and the 30-character prefix fallback, while for
contexts of at most 30 characters the single candidate phrase is the whole
normalized context with the marker still in it. -/
theorem extractKeyPhrases_marker (ctx : String)
    (h : strContains ctx ellipsisMarker = true) :
    extractKeyPhrases ctx =
      if ctx.length > 30 then
        strTrim (strReplaceFirst ctx ellipsisMarker "") ::
          (regexPhrases ctx ++ [strTake ctx 30])
      else [ctx] := by
  rw [extractKeyPhrases, h]
  simp only [if_true, List.length_cons, List.length_nil]
  by_cases h30 : ctx.length > 30
  · simp [h30]
  · simp [h30]

/-- Witness for C7 (amended) at a concrete long context containing the marker. -/
theorem extractKeyPhrases_marker_witness :
    strContains "abcdefghijklmnopqrstuvwxyz \x7b ... \x7d" ellipsisMarker = true ∧
    extractKeyPhrases "abcdefghijklmnopqrstuvwxyz \x7b ... \x7d" =
      (if ("abcdefghijklmnopqrstuvwxyz \x7b ... \x7d" : String).length > 30 then
        strTrim (strReplaceFirst "abcdefghijklmnopqrstuvwxyz \x7b ... \x7d" ellipsisMarker "") ::
          (regexPhrases "abcdefghijklmnopqrstuvwxyz \x7b ... \x7d" ++
            [strTake "abcdefghijklmnopqrstuvwxyz \x7b ... \x7d" 30])
      else ["abcdefghijklmnopqrstuvwxyz \x7b ... \x7d"]) :=
  ⟨by decide, extractKeyPhrases_marker _ (by decide)⟩

/-! ## C8: longest-phrase priority in the matcher's inner loop -/

theorem mem_insertLenDesc {x a : String} {l : List String} :
    a ∈ insertLenDesc x l ↔ a = x ∨ a ∈ l := by
  induction l with
  | nil => simp [insertLenDesc]
  | cons y ys ih =>
    rw [insertLenDesc]
    split
    · simp [List.mem_cons]
    · simp only [List.mem_cons, ih]
      tauto

theorem mem_sortLenDesc {a : String} {l : List String} (ha : a ∈ l) :
    a ∈ sortLenDesc l := by
  induction l with
  | nil => cases ha
  | cons x xs ih =>
    rw [sortLenDesc]
    rcases List.mem_cons.mp ha with h | h
    · exact mem_insertLenDesc.mpr (Or.inl h)
    · exact mem_insertLenDesc.mpr (Or.inr (ih h))

theorem pairwise_insertLenDesc {x : String} {l : List String}
    (hl : l.Pairwise (fun a b => b.length ≤ a.length)) :
    (insertLenDesc x l).Pairwise (fun a b => b.length ≤ a.length) := by
  induction l with
  | nil => simp [insertLenDesc]
  | cons y ys ih =>
    rw [insertLenDesc]
    rcases List.pairwise_cons.mp hl with ⟨hy, hys⟩
    split
    case isTrue h =>
      refine List.pairwise_cons.mpr ⟨?_, hl⟩
      intro z hz
      rcases List.mem_cons.mp hz with rfl | hz
      · exact h
      · exact le_trans (hy z hz) h
    case isFalse h =>
      refine List.pairwise_cons.mpr ⟨?_, ih hys⟩
      intro z hz
      rcases mem_insertLenDesc.mp hz with rfl | hz
      · exact Nat.le_of_lt (Nat.lt_of_not_le h)
      · exact hy z hz

theorem sortLenDesc_pairwise (l : List String) :
    (sortLenDesc l).Pairwise (fun a b => b.length ≤ a.length) := by
  induction l with
  | nil => simp [sortLenDesc]
  | cons x xs ih =>
    rw [sortLenDesc]
    exact pairwise_insertLenDesc ih

theorem find?_sorted_length {l : List String} {p : String → Bool} {q : String}
    (hsort : l.Pairwise (fun a b => b.length ≤ a.length))
    (hq : q ∈ l) (hpq : p q = true) :
    ∃ r, l.find? p = some r ∧ q.length ≤ r.length := by
  induction l with
  | nil => cases hq
  | cons h t ih =>
    rcases List.pairwise_cons.mp hsort with ⟨hh, ht⟩
    cases hph : p h with
    | true =>
      refine ⟨h, by simp [List.find?_cons, hph], ?_⟩
      rcases List.mem_cons.mp hq with rfl | hq2
      · exact le_refl _
      · exact hh q hq2
    | false =>
      have hq2 : q ∈ t := by
        rcases List.mem_cons.mp hq with rfl | hq2
        · rw [hpq] at hph; cases hph
        · exact hq2
      rcases ih ht hq2 with ⟨r, hr, hlen⟩
      exact ⟨r, by simp [List.find?_cons, hph, hr], hlen⟩

/-- C8: phrases are tried in order of descending length — whenever the line
content contains a candidate phrase `q`, and `p` is another, strictly shorter
candidate phrase (in particular a substring of `q`) also contained in the
line, the phrase the matcher's inner loop settles on is at least as long as
`q`, hence never the shorter `p`. -/
theorem findMatchingPhrase_longest (keyPhrases : List String)
    (lineContent p q : String)
    (hp : p ∈ keyPhrases) (hq : q ∈ keyPhrases) (hlen : p.length < q.length)
    (hpq : strContains q p = true)
    (hlp : strContains lineContent p = true)
    (hlq : strContains lineContent q = true) :
    ∃ r, findMatchingPhrase keyPhrases lineContent = some r ∧
      q.length ≤ r.length ∧ r ≠ p := by
  have hqne : q ≠ "" := by
    intro h
    subst h
    exact Nat.not_lt_zero _ hlen
  have hpredq : (q != "" && strContains lineContent q) = true := by
    rw [bne, beq_eq_false_iff_ne.mpr hqne]
    rw [hlq]
    rfl
  rcases find?_sorted_length (p := fun phrase => phrase != "" && strContains lineContent phrase)
      (sortLenDesc_pairwise keyPhrases) (mem_sortLenDesc hq) hpredq with ⟨r, hr, hlen2⟩
  refine ⟨r, ?_, hlen2, ?_⟩
  · rw [findMatchingPhrase]
    exact hr
  intro hrp
  subst hrp
  exact absurd (lt_of_lt_of_le hlen hlen2) (lt_irrefl _)

/-- Witness for C8 at phrases `foo` and `foo.bar` on a line containing both. -/
theorem findMatchingPhrase_longest_witness :
    ("foo" : String) ∈ ["foo", "foo.bar"] ∧
    ("foo.bar" : String) ∈ ["foo", "foo.bar"] ∧
    ("foo" : String).length < ("foo.bar" : String).length ∧
    strContains "foo.bar" "foo" = true ∧
    strContains "x = foo.bar(1)" "foo" = true ∧
    strContains "x = foo.bar(1)" "foo.bar" = true ∧
    ∃ r, findMatchingPhrase ["foo", "foo.bar"] "x = foo.bar(1)" = some r ∧
      ("foo.bar" : String).length ≤ r.length ∧ r ≠ "foo" :=
  ⟨by decide, by decide, by decide, by decide, by decide, by decide,
    findMatchingPhrase_longest ["foo", "foo.bar"] "x = foo.bar(1)" "foo" "foo.bar"
      (by decide) (by decide) (by decide) (by decide) (by decide) (by decide)⟩

/-! ## Orchestrator theorems -/

/-- C2: when no prior state exists the diff is fetched from the base branch
commit to the current head commit, the state
`(lastReviewedCommit, openComments) = (head, mapped)` is persisted, and the
submission is `REQUEST_CHANGES` carrying `mapped` when `mapped` is non-empty,
else `APPROVE` with no comments. -/
theorem mainRun_firstReview (pr : PrDetails) (diff : String) (comments : List LLMComment) :
    mainRun ⟨some pr, none, some diff, some comments⟩ =
      [Step.fetchMetadata, Step.loadCache, Step.fetchDiff pr.baseSha pr.headSha, Step.callLLM,
       Step.saveCache ⟨pr.headSha, mapCommentsToDiff diff comments⟩,
       Step.submit
         (if (mapCommentsToDiff diff comments).length > 0 then
            ⟨"REQUEST_CHANGES",
             some "Automated PR review found critical issues. See inline comments.",
             some (mapCommentsToDiff diff comments)⟩
          else ⟨"APPROVE", some "Looks good to me. Approving.", none⟩)] := by
  simp only [mainRun]
  generalize mapCommentsToDiff diff comments = M
  by_cases hm : M.length > 0
  · rw [if_pos hm, if_pos hm]
    simp [submitReviewPayload, hm]
  · rw [if_neg hm, if_neg hm]
    simp [approvePullRequestPayload]

/-- C1: when a prior state exists with a different last-reviewed commit, the
diff is fetched from the prior commit to the head, `relevantFixes` is the
intersection of the newly mapped comments with the prior open comments by
`(path, line)` equality, and the run approves with no comments persisting
`openComments = []` when it is empty, else requests changes with exactly
`relevantFixes` persisting `openComments = relevantFixes`. -/
theorem mainRun_reReview (pr : PrDetails) (prior : ReviewState) (diff : String)
    (comments : List LLMComment) (h : prior.last_commit ≠ pr.headSha) :
    mainRun ⟨some pr, some prior, some diff, some comments⟩ =
      [Step.fetchMetadata, Step.loadCache,
       Step.fetchDiff prior.last_commit pr.headSha, Step.callLLM] ++
      (if ((mapCommentsToDiff diff comments).filter (fun c =>
            (prior.previous_comments.map (fun pc => (pc.path, pc.line))).any
              (fun prev => prev.1 == c.path && prev.2 == c.line))).length == 0 then
         [Step.saveCache ⟨pr.headSha, []⟩,
          Step.submit ⟨"APPROVE", some "Looks good to me. Approving.", none⟩]
       else
         [Step.saveCache ⟨pr.headSha,
            (mapCommentsToDiff diff comments).filter (fun c =>
              (prior.previous_comments.map (fun pc => (pc.path, pc.line))).any
                (fun prev => prev.1 == c.path && prev.2 == c.line))⟩,
          Step.submit ⟨"REQUEST_CHANGES",
            some "Automated PR review found critical issues. See inline comments.",
            some ((mapCommentsToDiff diff comments).filter (fun c =>
              (prior.previous_comments.map (fun pc => (pc.path, pc.line))).any
                (fun prev => prev.1 == c.path && prev.2 == c.line)))⟩]) := by
  have hb : (prior.last_commit == pr.headSha) = false := beq_eq_false_iff_ne.mpr h
  simp only [mainRun, hb, Bool.false_eq_true, if_false]
  generalize (mapCommentsToDiff diff comments).filter (fun c =>
    (prior.previous_comments.map (fun pc => (pc.path, pc.line))).any
      (fun prev => prev.1 == c.path && prev.2 == c.line)) = RF
  by_cases hrf : (RF.length == 0) = true
  · rw [if_pos hrf, if_pos hrf]
    simp [approvePullRequestPayload]
  · rw [if_neg hrf, if_neg hrf]
    have hpos : RF.length > 0 := Nat.pos_of_ne_zero (by simpa using hrf)
    simp [submitReviewPayload, hpos]

/-- Witness for C1 at a concrete environment (an open comment at
`("a.js", 10)` and a run that maps nothing, matching the spec's resolution
scenario). -/
theorem mainRun_reReview_witness :
    (⟨"old", [⟨"a.js", 10, "RIGHT", "b"⟩]⟩ : ReviewState).last_commit ≠
      (⟨"new", "base"⟩ : PrDetails).headSha ∧
    mainRun ⟨some ⟨"new", "base"⟩, some ⟨"old", [⟨"a.js", 10, "RIGHT", "b"⟩]⟩,
        some "", some []⟩ =
      [Step.fetchMetadata, Step.loadCache, Step.fetchDiff "old" "new", Step.callLLM] ++
      (if ((mapCommentsToDiff "" []).filter (fun c =>
            ((⟨"old", [⟨"a.js", 10, "RIGHT", "b"⟩]⟩ : ReviewState).previous_comments.map
              (fun pc => (pc.path, pc.line))).any
              (fun prev => prev.1 == c.path && prev.2 == c.line))).length == 0 then
         [Step.saveCache ⟨"new", []⟩,
          Step.submit ⟨"APPROVE", some "Looks good to me. Approving.", none⟩]
       else
         [Step.saveCache ⟨"new",
            (mapCommentsToDiff "" []).filter (fun c =>
              ((⟨"old", [⟨"a.js", 10, "RIGHT", "b"⟩]⟩ : ReviewState).previous_comments.map
                (fun pc => (pc.path, pc.line))).any
                (fun prev => prev.1 == c.path && prev.2 == c.line))⟩,
          Step.submit ⟨"REQUEST_CHANGES",
            some "Automated PR review found critical issues. See inline comments.",
            some ((mapCommentsToDiff "" []).filter (fun c =>
              ((⟨"old", [⟨"a.js", 10, "RIGHT", "b"⟩]⟩ : ReviewState).previous_comments.map
                (fun pc => (pc.path, pc.line))).any
                (fun prev => prev.1 == c.path && prev.2 == c.line)))⟩]) :=
  ⟨by decide, mainRun_reReview ⟨"new", "base"⟩ ⟨"old", [⟨"a.js", 10, "RIGHT", "b"⟩]⟩
    "" [] (by decide)⟩

/-- C3 counterexample: in the up-to-date case the run still performs the
metadata fetch, an external call, so it does not produce zero external
calls. -/
theorem mainRun_upToDate_cex :
    mainRun ⟨some ⟨"abc", "base"⟩, some ⟨"abc", []⟩, none, none⟩ =
      [Step.fetchMetadata, Step.loadCache] ∧
    Step.fetchMetadata.isExternal = true ∧
    ((mainRun ⟨some ⟨"abc", "base"⟩, some ⟨"abc", []⟩, none, none⟩).filter
        Step.isExternal).length ≠ 0 := by
  refine ⟨by decide, by decide, by decide⟩

/-- C3 amended: when the prior state's last reviewed commit equals the head
commit the run performs no diff fetch, no LLM call, no submission and no
state write, and exits right after the metadata fetch and the local state
read; the metadata fetch is the single external call of the run (so the run
makes no external calls beyond it, but not zero). -/
theorem mainRun_upToDate (pr : PrDetails) (prior : ReviewState) (dt : Option String)
    (lc : Option (List LLMComment)) (h : prior.last_commit = pr.headSha) :
    mainRun ⟨some pr, some prior, dt, lc⟩ = [Step.fetchMetadata, Step.loadCache] ∧
    (mainRun ⟨some pr, some prior, dt, lc⟩).filter Step.isExternal =
      [Step.fetchMetadata] := by
  have hb : (prior.last_commit == pr.headSha) = true := beq_iff_eq.mpr h
  constructor
  · simp [mainRun, hb]
  · simp [mainRun, hb, Step.isExternal, List.filter]

/-- Witness for C3 (amended) at a concrete up-to-date environment. -/
theorem mainRun_upToDate_witness :
    (⟨"abc", []⟩ : ReviewState).last_commit = (⟨"abc", "base"⟩ : PrDetails).headSha ∧
    (mainRun ⟨some ⟨"abc", "base"⟩, some ⟨"abc", []⟩, none, none⟩ =
      [Step.fetchMetadata, Step.loadCache] ∧
     (mainRun ⟨some ⟨"abc", "base"⟩, some ⟨"abc", []⟩, none, none⟩).filter Step.isExternal =
      [Step.fetchMetadata]) :=
  ⟨rfl, mainRun_upToDate ⟨"abc", "base"⟩ ⟨"abc", []⟩ none none rfl⟩

/-- C4: if the metadata fetch, the diff fetch, or the LLM call / JSON decode
fails, the run performs no state write and no submission — the externally
observable effect of an aborted run is nothing. -/
theorem mainRun_abort_no_effect (env : Env)
    (h : env.prDetails = none ∨ env.diffText = none ∨ env.llmComments = none) :
    (mainRun env).any (fun s => s.isSave || s.isSubmit) = false := by
  obtain ⟨pd, ca, dt, lc⟩ := env
  cases pd with
  | none => simp [mainRun, Step.isSave, Step.isSubmit]
  | some pr =>
    cases ca with
    | none =>
      cases dt with
      | none => simp [mainRun, Step.isSave, Step.isSubmit]
      | some d =>
        cases lc with
        | none => simp [mainRun, Step.isSave, Step.isSubmit]
        | some c => rcases h with h | h | h <;> simp at h
    | some prior =>
      by_cases hc : (prior.last_commit == pr.headSha) = true
      · simp [mainRun, hc, Step.isSave, Step.isSubmit]
      · have hc2 : (prior.last_commit == pr.headSha) = false := by
          simpa using hc
        cases dt with
        | none => simp [mainRun, hc2, Step.isSave, Step.isSubmit]
        | some d =>
          cases lc with
          | none => simp [mainRun, hc2, Step.isSave, Step.isSubmit]
          | some c => rcases h with h | h | h <;> simp at h

/-- Witness for C4 at a concrete environment whose LLM call fails. -/
theorem mainRun_abort_no_effect_witness :
    ((⟨some ⟨"head", "base"⟩, none, some "", none⟩ : Env).prDetails = none ∨
     (⟨some ⟨"head", "base"⟩, none, some "", none⟩ : Env).diffText = none ∨
     (⟨some ⟨"head", "base"⟩, none, some "", none⟩ : Env).llmComments = none) ∧
    (mainRun ⟨some ⟨"head", "base"⟩, none, some "", none⟩).any
      (fun s => s.isSave || s.isSubmit) = false :=
  ⟨Or.inr (Or.inr rfl),
   mainRun_abort_no_effect ⟨some ⟨"head", "base"⟩, none, some "", none⟩
     (Or.inr (Or.inr rfl))⟩

/-! ## Submission payload theorems (C9) -/

/-- C9 counterexample: the older `submitReview` embedded in part_001 attaches
the comments list to a `REQUEST_CHANGES` submission even when the list is
empty. -/
theorem submitReview_comments_cex :
    (submitReviewPayloadLegacy (some []) "REQUEST_CHANGES").comments = some [] ∧
    (submitReviewPayloadLegacy (some []) "REQUEST_CHANGES").event = "REQUEST_CHANGES" := by
  refine ⟨by decide, by decide⟩

/-- C9 amended: an `APPROVE` submission never carries a comments list in any
of the three payload builders; the current `submitReview` and the part_000
`submitReview` attach a comments list only when it is non-empty; the older
`submitReview` embedded in part_001 attaches exactly the list it is given
(possibly empty) for `REQUEST_CHANGES` and never attaches one for
`COMMENT`. -/
theorem payload_comments_policy (mc : Option (List MappedComment)) (mode : String)
    (b : Option String) (cs : List MappedComment) :
    (submitReviewPayload mc "APPROVE").comments = none ∧
    (submitReviewPayloadPart000 mc "APPROVE").comments = none ∧
    (submitReviewPayloadLegacy mc "APPROVE").comments = none ∧
    (approvePullRequestPayload b).comments = none ∧
    ((submitReviewPayload mc mode).comments = some cs → cs ≠ []) ∧
    ((submitReviewPayloadPart000 mc mode).comments = some cs → cs ≠ []) ∧
    ((submitReviewPayloadLegacy mc mode).comments = some cs →
      mode = "REQUEST_CHANGES" ∧ mc = some cs) := by
  refine ⟨rfl, rfl, rfl, rfl, ?_, ?_, ?_⟩
  · intro hcs
    unfold submitReviewPayload at hcs
    by_cases h1 : (mode == "APPROVE") = true
    · rw [if_pos h1] at hcs
      cases hcs
    · rw [if_neg h1] at hcs
      by_cases h2 : (mode == "REQUEST_CHANGES" || mode == "COMMENT") = true
      · rw [if_pos h2] at hcs
        simp only at hcs
        cases mc with
        | none => cases hcs
        | some l =>
          simp only at hcs
          by_cases h3 : l.length > 0
          · rw [if_pos h3] at hcs
            cases hcs
            intro hnil
            rw [hnil] at h3
            exact absurd h3 (by simp)
          · rw [if_neg h3] at hcs
            cases hcs
      · rw [if_neg h2] at hcs
        cases hcs
  · intro hcs
    unfold submitReviewPayloadPart000 at hcs
    simp only at hcs
    by_cases h2 : (mode == "REQUEST_CHANGES" || mode == "COMMENT") = true
    · rw [if_pos h2] at hcs
      cases mc with
      | none => cases hcs
      | some l =>
        simp only at hcs
        by_cases h3 : l.length > 0
        · rw [if_pos h3] at hcs
          cases hcs
          intro hnil
          rw [hnil] at h3
          exact absurd h3 (by simp)
        · rw [if_neg h3] at hcs
          cases hcs
    · rw [if_neg h2] at hcs
      cases hcs
  · intro hcs
    unfold submitReviewPayloadLegacy at hcs
    simp only at hcs
    by_cases h1 : (mode == "REQUEST_CHANGES") = true
    · rw [if_pos h1] at hcs
      exact ⟨beq_iff_eq.mp h1, hcs⟩
    · rw [if_neg h1] at hcs
      cases hcs

/-- Witness for C9 (amended) at concrete arguments. -/
theorem payload_comments_policy_witness :
    (submitReviewPayload (some [⟨"a.js", 10, "RIGHT", "b"⟩]) "APPROVE").comments = none ∧
    (submitReviewPayloadPart000 (some [⟨"a.js", 10, "RIGHT", "b"⟩]) "APPROVE").comments = none ∧
    (submitReviewPayloadLegacy (some [⟨"a.js", 10, "RIGHT", "b"⟩]) "APPROVE").comments = none ∧
    (approvePullRequestPayload none).comments = none ∧
    ((submitReviewPayload (some [⟨"a.js", 10, "RIGHT", "b"⟩]) "COMMENT").comments =
        some [⟨"a.js", 10, "RIGHT", "b"⟩] → [(⟨"a.js", 10, "RIGHT", "b"⟩ : MappedComment)] ≠ []) ∧
    ((submitReviewPayloadPart000 (some [⟨"a.js", 10, "RIGHT", "b"⟩]) "COMMENT").comments =
        some [⟨"a.js", 10, "RIGHT", "b"⟩] → [(⟨"a.js", 10, "RIGHT", "b"⟩ : MappedComment)] ≠ []) ∧
    ((submitReviewPayloadLegacy (some [⟨"a.js", 10, "RIGHT", "b"⟩]) "COMMENT").comments =
        some [⟨"a.js", 10, "RIGHT", "b"⟩] →
      "COMMENT" = "REQUEST_CHANGES" ∧
        (some [⟨"a.js", 10, "RIGHT", "b"⟩] : Option (List MappedComment)) =
          some [⟨"a.js", 10, "RIGHT", "b"⟩]) :=
  payload_comments_policy (some [⟨"a.js", 10, "RIGHT", "b"⟩]) "COMMENT" none
    [⟨"a.js", 10, "RIGHT", "b"⟩]

/-! ## C10: the three copies of `mapCommentsToDiff` agree -/

/-- C10: the three textual copies of the mapping function — in part_000, the
current one in part_001, and the older one embedded later in part_001 — are
extensionally equal: on every diff text and annotation list they return the
same list of mapped comments. -/
theorem mapCommentsToDiff_copies_agree (diff : String) (llmComments : List LLMComment) :
    mapCommentsToDiffPart000 diff llmComments = mapCommentsToDiff diff llmComments ∧
    mapCommentsToDiffLegacy diff llmComments = mapCommentsToDiff diff llmComments :=
  ⟨rfl, rfl⟩

end PrReviewBot
